import Mathlib

/-!
# Verification of the AGT bidding-competition core

A shallow embedding of the repository's sandboxed agent executor
(`src/agent_manager.py`), game orchestrator (`src/game_manager.py`) and
auction settlement engine, together with proofs of the specification's
claims about them.

Modelling conventions:
* Python floats are modelled as rationals (`ℚ`).
* Python dicts are modelled as association lists (`List (String × α)`)
  with dict-style assignment (`setAssoc`: overwrite an existing key,
  append a fresh one) and lookup (`lookupA`).
* The guest code running inside an isolated worker process is untrusted
  input; its observable behaviour during one call (the bid it returns,
  whether it raised, and the fields of the guest object afterwards) is a
  parameter of the model (`GuestRun`), while everything the host does
  with that behaviour is translated from the source.
* The host side of a call observes the worker through the result queue;
  the possible observations (timeout, a worker message, a failed queue
  read, an unexpected host exception) form `HostBidEvent` /
  `HostUpdateEvent`, and the host's reaction to each observation is
  translated from the source.
-/

/-! ## Data model and operations -/

/-- Lookup in an association list, first match wins (Python dict lookup). -/
def lookupA {α : Type} : List (String × α) → String → Option α
  | [], _ => none
  | p :: rest, k => if p.1 = k then some p.2 else lookupA rest k

/-- Lookup with a default value. -/
def lookupD {α : Type} (l : List (String × α)) (k : String) (d : α) : α :=
  (lookupA l k).getD d

/-- Python dict assignment `d[k] = v`: overwrite the entry for `k` if it
exists, otherwise append a new one. -/
def setAssoc {α : Type} : List (String × α) → String → α → List (String × α)
  | [], k, v => [(k, v)]
  | p :: rest, k, v => if p.1 = k then (k, v) :: rest else p :: setAssoc rest k v

structure FieldVal where
  data : Nat
  callable : Bool
  picklable : Bool
  deriving DecidableEq

/-- The checkpoint of an agent: the serialized field map. -/
abbrev AgentState := List (String × FieldVal)

/-- Python's `key.startswith('_')`: the first character of the name is
an underscore. -/
def startsUnderscore (s : String) : Bool :=
  match s.data with
  | [] => false
  | c :: _ => c = '_'

/-- The condition under which a field is kept in a checkpoint:
public name (no leading underscore), not callable, and serializable. -/
def serialOK (p : String × FieldVal) : Bool :=
  !startsUnderscore p.1 && !p.2.callable && p.2.picklable

/-- The worker's state-capture loop (`agent_manager.py` lines 79-87 and
139-146): walk `agent.__dict__`, keep every public, non-callable,
picklable field, silently skip the rest. -/
def serializeState (fields : List (String × FieldVal)) : AgentState :=
  fields.foldl (fun acc p => if serialOK p then acc ++ [p] else acc) []

/-- What happened while loading the guest module and constructing the
guest object inside the worker process. -/
inductive LoadOutcome where
  | ok
  /-- `spec_from_file_location` returned no loadable spec. -/
  | specFailed
  /-- The module has no `BiddingAgent` class. -/
  | noAgentClass
  /-- `exec_module` or the guest constructor raised, with `str(e)`. -/
  | raised (msg : String)
  deriving DecidableEq

/-- The guest's observable behaviour during one `bidding_function` call:
whether it raised (with `str(e)`), the bid it returned otherwise, the
wall time it took and the guest object's `__dict__` afterwards. -/
structure GuestRun where
  raises : Option String
  bid : ℚ
  execTime : ℚ
  fields : List (String × FieldVal)

/-- The guest's observable behaviour during one `update_after_each_round`
call. -/
structure GuestUpdateRun where
  raises : Option String
  fields : List (String × FieldVal)

/-- What a worker puts on the result queue for a bid call:
`('success', bid, time, new_state, None)` or `('error', 0, 0, None, msg)`. -/
inductive WorkerBidMsg where
  | success (bid : ℚ) (execTime : ℚ) (newState : AgentState)
  | error (msg : String)
  deriving DecidableEq

/-- What a worker puts on the result queue for an update call. -/
inductive WorkerUpdateMsg where
  | success (newState : AgentState)
  | error (msg : String)
  deriving DecidableEq

/-- `_worker_execute_bid` (agent_manager.py lines 26-92): load the module,
build or restore the agent, run `bidding_function`, serialize the safe
fields, and report either success or the error string. -/
def workerExecuteBid (load : LoadOutcome) (run : GuestRun) : WorkerBidMsg :=
  match load with
  | .specFailed => .error "Failed to load module spec"
  | .noAgentClass => .error "No BiddingAgent class found"
  | .raised m => .error m
  | .ok =>
    match run.raises with
    | some m => .error m
    | none => .success run.bid run.execTime (serializeState run.fields)

/-- `_worker_update_agent` (agent_manager.py lines 95-151). -/
def workerUpdateAgent (load : LoadOutcome) (run : GuestUpdateRun) : WorkerUpdateMsg :=
  match load with
  | .specFailed => .error "Failed to load module spec"
  | .noAgentClass => .error "No BiddingAgent class found"
  | .raised m => .error m
  | .ok =>
    match run.raises with
    | some m => .error m
    | none => .success (serializeState run.fields)

/-! ## Python's `round(x, 2)` -/

/-- Round a rational to the nearest integer, halves to the even integer
(Python's `round`). -/
def roundHalfEven (q : ℚ) : ℤ :=
  let f := ⌊q⌋
  let frac := q - (f : ℚ)
  if frac < 1/2 then f
  else if 1/2 < frac then f + 1
  else if f % 2 = 0 then f else f + 1

/-- Python's `round(x, 2)`: round to two decimal places. -/
def round2 (q : ℚ) : ℚ := (roundHalfEven (q * 100) : ℚ) / 100

/-! ## The agent manager (host side) -/

/-- The metadata stored by `load_agent` for process-isolated execution. -/
structure AgentMetadata where
  filePath : String
  teamId : String
  valuationVector : List (String × ℚ)
  budget : ℚ
  opponentTeams : List String
  deriving DecidableEq

/-- The mutable state of an `AgentManager`: the per-call timeout, the
registration metadata and the stored per-team checkpoints
(`agent_states[team]` is `None` before the first successful call). -/
structure ManagerState where
  timeoutSeconds : ℚ
  agentMetadata : List (String × AgentMetadata)
  agentStates : List (String × Option AgentState)
  deriving DecidableEq

/-- The stored checkpoint of a team (`self.agent_states[team_id]`,
collapsing a missing key and a stored `None` to `none`). -/
def getState (m : ManagerState) (t : String) : Option AgentState :=
  match lookupA m.agentStates t with
  | some s => s
  | none => none

/-- `self.agent_states[team_id] = new_state`. -/
def setState (m : ManagerState) (t : String) (s : AgentState) : ManagerState :=
  { m with agentStates := setAssoc m.agentStates t (some s) }

/-- `team_id in self.agent_metadata`. -/
def isRegistered (m : ManagerState) (t : String) : Bool :=
  (lookupA m.agentMetadata t).isSome

/-- The triple returned by `execute_bid_with_timeout`:
`(bid_amount, execution_time, error_msg)`. -/
structure BidResult where
  bid : ℚ
  execTime : ℚ
  error : Option String
  deriving DecidableEq

/-- What the host observes of a bid worker: the process was still alive
after `join(timeout)`; or the queue yielded a worker message (with the
host-measured elapsed time); or the queue read failed; or some other
exception hit the host `try` block. -/
inductive HostBidEvent where
  | timeout
  | workerMsg (msg : WorkerBidMsg) (elapsed : ℚ)
  | queueFailure (elapsed : ℚ)
  | hostException (msg : String) (elapsed : ℚ)
  deriving DecidableEq

/-- Same observations for an update worker. -/
inductive HostUpdateEvent where
  | timeout
  | workerMsg (msg : WorkerUpdateMsg)
  | queueFailure
  | hostException (msg : String)
  deriving DecidableEq

/-- `AgentManager.execute_bid_with_timeout` (agent_manager.py lines
282-371): registration check, then react to the observed worker event:
timeout kills the process and returns `(0.0, timeout_seconds,
"Timeout")` without touching the checkpoint; a success message stores
the new checkpoint and returns the bid rounded to two decimals; every
error path returns bid `0.0` with a non-empty message and leaves the
checkpoint alone. -/
def executeBidWithTimeout (m : ManagerState) (teamId : String) (ev : HostBidEvent) :
    BidResult × ManagerState :=
  match lookupA m.agentMetadata teamId with
  | none => (⟨0, 0, some "Agent not registered"⟩, m)
  | some _ =>
    match ev with
    | .timeout => (⟨0, m.timeoutSeconds, some "Timeout"⟩, m)
    | .workerMsg msg elapsed =>
      match msg with
      | .success bid t ns => (⟨round2 bid, t, none⟩, setState m teamId ns)
      | .error emsg => (⟨0, elapsed, some ("Error: " ++ emsg)⟩, m)
    | .queueFailure elapsed => (⟨0, elapsed, some "No result returned"⟩, m)
    | .hostException emsg elapsed => (⟨0, elapsed, some ("Exception: " ++ emsg)⟩, m)

/-- `AgentManager.update_agent_after_round` (agent_manager.py lines
373-454): registration check, then the `agent_state is None` guard, then
react to the observed worker event; only a success message stores a new
checkpoint and returns `True`. -/
def updateAgentAfterRound (m : ManagerState) (teamId _itemId _winningTeam : String)
    (_pricePaid : ℚ) (ev : HostUpdateEvent) : Bool × ManagerState :=
  match lookupA m.agentMetadata teamId with
  | none => (false, m)
  | some _ =>
    match getState m teamId with
    | none => (false, m)
    | some _ =>
      match ev with
      | .timeout => (false, m)
      | .workerMsg msg =>
        match msg with
        | .success ns => (true, setState m teamId ns)
        | .error _ => (false, m)
      | .queueFailure => (false, m)
      | .hostException _ => (false, m)

/-! ## The auction settlement engine

The settlement engine (`AuctionEngine.execute_round`) is not part of the
sources available here — only its caller in `game_manager.py` is — so it
is modelled from the specification. -/

/-- Modelled from the spec: the `RoundResult` record produced by
settlement (`src/auction_engine.py` and `src/utils.py` are not in the
available sources): round number, item, optional winner, price paid and
the full bid map. -/
structure RoundResult where
  roundNumber : Nat
  itemId : String
  winnerId : Option String
  pricePaid : ℚ
  allBids : List (String × ℚ)
  deriving DecidableEq

/-- Clipping a bid to `[0, budget]`. -/
def clip (bid budget : ℚ) : ℚ := max 0 (min bid budget)

/-- Modelled from the spec: clip every bid to `[0, budget[team]]`, a team
absent from the budget map getting 0. -/
def clippedBids (bids budgets : List (String × ℚ)) : List (String × ℚ) :=
  bids.map (fun p => (p.1, clip p.2 (lookupD budgets p.1 0)))

/-- Maximum of a list of rationals with a default. -/
def maxD : List ℚ → ℚ → ℚ
  | [], d => d
  | x :: xs, d => max x (maxD xs d)

/-- The second-highest value of a list (counting multiplicity), 0 when
there is no second value: drop one occurrence of the maximum and take
the maximum of the rest. -/
def secondHighest (l : List ℚ) : ℚ :=
  maxD (l.erase (maxD l 0)) 0

/-- The winning entry: strictly highest clipped bid, ties broken towards
the lexicographically smallest team id. -/
def bestOf : List (String × ℚ) → Option (String × ℚ)
  | [] => none
  | p :: rest =>
    match bestOf rest with
    | none => some p
    | some q => if q.2 > p.2 ∨ (q.2 = p.2 ∧ q.1 < p.1) then some q else some p

/-- Modelled from the spec: `settle(bids, budgets)` — clip every bid to
`[0, budget[team]]` (absent team gives 0), the strictly highest clipped
bid wins with lexicographic tie-break, the price paid is the
second-highest clipped bid, and there is no winner when the highest
clipped bid is 0. -/
def settle (roundNumber : Nat) (itemId : String) (bids budgets : List (String × ℚ)) :
    RoundResult :=
  let cb := clippedBids bids budgets
  match bestOf cb with
  | none => ⟨roundNumber, itemId, none, 0, bids⟩
  | some w =>
    if 0 < w.2 then
      ⟨roundNumber, itemId, some w.1, secondHighest (cb.map Prod.snd), bids⟩
    else
      ⟨roundNumber, itemId, none, 0, bids⟩

/-- The orchestrator's per-game state: the registered team ids
(`self.agents`, in registration order), the public budgets, the items
won, and the agent manager it drives. -/
structure GameState where
  agents : List String
  budgets : List (String × ℚ)
  itemsWon : List (String × List String)
  manager : ManagerState
  deriving DecidableEq

/-- The environment of one round: what the host observes from each
team's isolated bid worker and update worker. -/
structure RoundEnv where
  bidEvents : String → HostBidEvent
  updateEvents : String → HostUpdateEvent

/-- The bid-collection loop of `execute_auction_round` (game_manager.py
lines 227-237): call `execute_bid_with_timeout` for every team in order,
recording `bids[team_id] = bid`. -/
def collectBids (teams : List String) (events : String → HostBidEvent) (m : ManagerState) :
    List (String × ℚ) × ManagerState :=
  match teams with
  | [] => ([], m)
  | t :: rest =>
    let r := executeBidWithTimeout m t (events t)
    let res := collectBids rest events r.2
    ((t, r.1.bid) :: res.1, res.2)

/-- One `update` invocation as issued by the orchestrator, with the
arguments it passed. -/
structure UpdateCall where
  team : String
  itemId : String
  winningTeam : String
  pricePaid : ℚ
  deriving DecidableEq

/-- The update loop of `execute_auction_round` (game_manager.py lines
278-282): call `update_agent_after_round` for every team with the
round's public outcome, recording each invocation. -/
def runUpdates (teams : List String) (itemId winningTeam : String) (pricePaid : ℚ)
    (events : String → HostUpdateEvent) (m : ManagerState) :
    List UpdateCall × ManagerState :=
  match teams with
  | [] => ([], m)
  | t :: rest =>
    let r := updateAgentAfterRound m t itemId winningTeam pricePaid (events t)
    let res := runUpdates rest itemId winningTeam pricePaid events r.2
    (⟨t, itemId, winningTeam, pricePaid⟩ :: res.1, res.2)

/-- The value of `GameManager.execute_auction_round`: the round result,
the update invocations issued, and the new game state. -/
structure RoundExec where
  result : RoundResult
  updCalls : List UpdateCall
  state : GameState
  deriving DecidableEq

/-- `GameManager.execute_auction_round` (game_manager.py lines 137-284):
collect bids from all agents, settle, debit the winner's budget and
record the won item (`if round_result.winner_id:` — Python truthiness,
so an empty-string winner is treated as no winner), then update every
agent with the public outcome. -/
def executeAuctionRound (gs : GameState) (roundNumber : Nat) (itemId : String)
    (env : RoundEnv) : RoundExec :=
  let cb := collectBids gs.agents env.bidEvents gs.manager
  let r := settle roundNumber itemId cb.1 gs.budgets
  let newBudgets :=
    match r.winnerId with
    | some w =>
      if w = "" then gs.budgets
      else setAssoc gs.budgets w (lookupD gs.budgets w 0 - r.pricePaid)
    | none => gs.budgets
  let newItemsWon :=
    match r.winnerId with
    | some w =>
      if w = "" then gs.itemsWon
      else setAssoc gs.itemsWon w (lookupD gs.itemsWon w [] ++ [itemId])
    | none => gs.itemsWon
  let ru := runUpdates gs.agents itemId (r.winnerId.getD "") r.pricePaid
    env.updateEvents cb.2
  ⟨r, ru.1, ⟨gs.agents, newBudgets, newItemsWon, ru.2⟩⟩

/-- The round loop of `GameManager.run_game` (game_manager.py lines
304-308), with each round's item and environment given explicitly. -/
def runRounds (gs : GameState) : List (Nat × String × RoundEnv) → List RoundResult × GameState
  | [] => ([], gs)
  | (n, it, env) :: rest =>
    let ex := executeAuctionRound gs n it env
    let res := runRounds ex.state rest
    (ex.result :: res.1, res.2)

/-- `AgentManager.load_agent` success path (agent_manager.py lines
232-240): store the metadata and an empty (`None`) checkpoint. -/
def registerAgent (m : ManagerState) (t : String) (meta : AgentMetadata) : ManagerState :=
  { m with
    agentMetadata := setAssoc m.agentMetadata t meta
    agentStates := setAssoc m.agentStates t none }

/-- The agent-loading loop of `GameManager.initialize_game`
(game_manager.py lines 112-128): register each team in turn; the first
team whose `load_agent` returns no handle makes the whole
initialization fail.  `loads t` abstracts whether `load_agent`
succeeds for team `t`. -/
def loadAgents (teamIds : List String) (vals : String → List (String × ℚ)) (budget : ℚ)
    (loads : String → Bool) (m : ManagerState) :
    List (String × String) → Option ManagerState
  | [] => some m
  | (t, f) :: rest =>
    if loads t then
      loadAgents teamIds vals budget loads
        (registerAgent m t ⟨f, t, vals t, budget, teamIds.filter (fun u => u ≠ t)⟩) rest
    else none

/-- `GameManager.initialize_game` (game_manager.py lines 69-135):
initialize every team's budget and items-won record, then load all
agents; any single failure makes the whole initialization fail
(`return False`), so no game state is produced. -/
def initGame (vals : String → List (String × ℚ)) (initialBudget : ℚ)
    (loads : String → Bool) (mgr0 : ManagerState) (teamAgents : List (String × String)) :
    Option GameState :=
  let teamIds := teamAgents.map Prod.fst
  match loadAgents teamIds vals initialBudget loads mgr0 teamAgents with
  | none => none
  | some m =>
    some ⟨teamIds, teamIds.map (fun t => (t, initialBudget)),
      teamIds.map (fun t => (t, ([] : List String))), m⟩

/-- `GameManager.run_game` (game_manager.py lines 286-328): a failed
initialization raises `Exception("Game initialization failed")` before
any auction round executes; otherwise all rounds run. -/
def runGame (vals : String → List (String × ℚ)) (initialBudget : ℚ)
    (loads : String → Bool) (mgr0 : ManagerState) (teamAgents : List (String × String))
    (rounds : List (Nat × String × RoundEnv)) :
    Except String (List RoundResult × GameState) :=
  match initGame vals initialBudget loads mgr0 teamAgents with
  | none => Except.error "Game initialization failed"
  | some gs => Except.ok (runRounds gs rounds)

/-! ## Observing checkpoint changes within one round

To count how often a team's stored checkpoint changes during a round we
list the manager states after every executor call of the round (each
team's bid call, then each team's update call, in the order the
orchestrator issues them) and count the changes of the observed
checkpoint along that list. -/

/-- One executor call of a round. -/
inductive RoundCall where
  | bidCall (team : String)
  | updateCall (team : String)
  deriving DecidableEq

/-- The executor calls of one round, in orchestrator order. -/
def roundCalls (teams : List String) : List RoundCall :=
  teams.map RoundCall.bidCall ++ teams.map RoundCall.updateCall

/-- Apply one executor call to the manager state. -/
def applyCall (env : RoundEnv) (itemId winningTeam : String) (pricePaid : ℚ)
    (m : ManagerState) : RoundCall → ManagerState
  | .bidCall t => (executeBidWithTimeout m t (env.bidEvents t)).2
  | .updateCall t =>
    (updateAgentAfterRound m t itemId winningTeam pricePaid (env.updateEvents t)).2

/-- Run a list of executor calls. -/
def runCalls (env : RoundEnv) (itemId winningTeam : String) (pricePaid : ℚ)
    (m : ManagerState) : List RoundCall → ManagerState
  | [] => m
  | c :: cs => runCalls env itemId winningTeam pricePaid
      (applyCall env itemId winningTeam pricePaid m c) cs

/-- All intermediate manager states along a list of executor calls,
starting state included. -/
def callStates (env : RoundEnv) (itemId winningTeam : String) (pricePaid : ℚ)
    (m : ManagerState) : List RoundCall → List ManagerState
  | [] => [m]
  | c :: cs => m :: callStates env itemId winningTeam pricePaid
      (applyCall env itemId winningTeam pricePaid m c) cs

/-- Count how many times adjacent entries of a list differ. -/
def countChanges : List (Option AgentState) → Nat
  | a :: b :: rest => (if a = b then 0 else 1) + countChanges (b :: rest)
  | _ => 0

/-- Team `t`'s stored checkpoint observed before and after every executor
call of the round driven by `execute_auction_round` on `gs`. -/
def roundCheckpointTrace (gs : GameState) (roundNumber : Nat) (itemId : String)
    (env : RoundEnv) (t : String) : List (Option AgentState) :=
  let cb := collectBids gs.agents env.bidEvents gs.manager
  let r := settle roundNumber itemId cb.1 gs.budgets
  (callStates env itemId (r.winnerId.getD "") r.pricePaid gs.manager
    (roundCalls gs.agents)).map (fun m => getState m t)

/-- Did the event observed for a bid call carry a successful worker
message (the only case in which the host stores a new checkpoint)? -/
def isBidSuccessEv : HostBidEvent → Bool
  | .workerMsg (.success _ _ _) _ => true
  | _ => false

/-- Did the event observed for an update call carry a successful worker
message? -/
def isUpdSuccessEv : HostUpdateEvent → Bool
  | .workerMsg (.success _) => true
  | _ => false

/-- The calls of a round that can possibly change team `t`'s stored
checkpoint: `t`'s own bid call when its worker succeeded, and `t`'s own
update call when its worker succeeded. -/
def mayChange (env : RoundEnv) (t : String) : RoundCall → Bool
  | .bidCall u => decide (u = t) && isBidSuccessEv (env.bidEvents u)
  | .updateCall u => decide (u = t) && isUpdSuccessEv (env.updateEvents u)

/-! ## Executor lemmas -/

/-- The spec's settlement scenario: budgets 60/60, bids 20 and 15. -/
def bidsW : List (String × ℚ) := [("A", 20), ("B", 15)]

/-- Budgets for the settlement scenario. -/
def budgetsW : List (String × ℚ) := [("A", 60), ("B", 60)]

/-- Registration metadata of a sample team. -/
def metaW : AgentMetadata :=
  ⟨"teams/alpha/bidding_agent.py", "alpha", [("item_0", 30)], 60, ["beta"]⟩

/-- A sample stored checkpoint. -/
def stateW : AgentState := [("rounds_seen", ⟨1, false, true⟩)]

/-- A manager with one registered team holding a checkpoint. -/
def mgrW : ManagerState := ⟨3, [("alpha", metaW)], [("alpha", some stateW)]⟩

/-- The bid-call observations of C5: a worker error message (guest
exception, load failure or malformed return), a failed queue read, or
an unexpected host exception. -/
def isBidFailureEv : HostBidEvent → Bool
  | .workerMsg (.error _) _ => true
  | .queueFailure _ => true
  | .hostException _ _ => true
  | _ => false

/-- A guest bid run ending with one field of each kind: kept, private,
callable, unpicklable. -/
def runW : GuestRun :=
  ⟨none, 17, 1, [("valuations", ⟨3, false, true⟩), ("_secret", ⟨4, false, true⟩),
    ("helper", ⟨5, true, true⟩), ("socket", ⟨6, false, false⟩)]⟩

/-- A guest update run. -/
def urunW : GuestUpdateRun := ⟨none, [("rounds_seen", ⟨9, false, true⟩)]⟩

/-- A one-team game state holding a checkpoint. -/
def gsW : GameState := ⟨["alpha"], [("alpha", 60)], [("alpha", [])], mgrW⟩

/-- The checkpoint written by the sample team's update worker. -/
def nsW : AgentState := [("rounds_seen", ⟨2, false, true⟩)]

/-- A round in which every bid call times out and every update worker
succeeds. -/
def envW : RoundEnv := ⟨fun _ => .timeout, fun _ => .workerMsg (.success nsW)⟩

/-- Checkpoint written by the C7 counterexample's bid worker. -/
def s7 : AgentState := [("rounds_seen", ⟨7, false, true⟩)]

/-- Checkpoint written by the C7 counterexample's update worker. -/
def s8 : AgentState := [("rounds_seen", ⟨8, false, true⟩)]

/-- A round whose bid worker and update worker both succeed with
distinct states. -/
def envC7 : RoundEnv := ⟨fun _ => .workerMsg (.success 5 1 s7) 1, fun _ => .workerMsg (.success s8)⟩

/-- Registration metadata of scenario team A. -/
def metaA : AgentMetadata := ⟨"a.py", "A", [("item_0", 30)], 60, ["B"]⟩

/-- Registration metadata of scenario team B. -/
def metaB : AgentMetadata := ⟨"b.py", "B", [("item_0", 20)], 60, ["A"]⟩

/-- A manager with teams A and B registered. -/
def mgrAB : ManagerState := ⟨3, [("A", metaA), ("B", metaB)], [("A", some []), ("B", some [])]⟩

/-- The spec's scenario game state: budgets A:60, B:60. -/
def gsAB : GameState := ⟨["A", "B"], [("A", 60), ("B", 60)], [("A", []), ("B", [])], mgrAB⟩

/-- The spec's scenario round: A's worker bids 20, B's bids 15. -/
def envAB : RoundEnv :=
  ⟨fun t => if t = "A" then .workerMsg (.success 20 1 []) 1 else .workerMsg (.success 15 1 []) 1,
   fun _ => .workerMsg (.success [])⟩

/-- Loader for the C9 witness: team "bad" fails registration. -/
def loadsW : String → Bool := fun t => t != "bad"

/-! ## Theorems -/

theorem lookupA_setAssoc_self {α : Type} (l : List (String × α)) (k : String) (v : α) :
    lookupA (setAssoc l k v) k = some v := by
  induction l with
  | nil => simp [setAssoc, lookupA]
  | cons p rest ih =>
    by_cases h : p.1 = k
    · simp [setAssoc, h, lookupA]
    · simp [setAssoc, h, lookupA, ih]

theorem lookupA_setAssoc_ne {α : Type} (l : List (String × α)) (k k' : String) (v : α)
    (h : k' ≠ k) : lookupA (setAssoc l k v) k' = lookupA l k' := by
  induction l with
  | nil => simp [setAssoc, lookupA, Ne.symm h]
  | cons p rest ih =>
    by_cases hp : p.1 = k
    · subst hp
      simp [setAssoc, lookupA, Ne.symm h]
    · simp [setAssoc, hp, lookupA, ih]

theorem mem_map_fst_setAssoc {α : Type} (l : List (String × α)) (k k' : String) (v : α)
    (h : k' ∈ l.map Prod.fst) : k' ∈ (setAssoc l k v).map Prod.fst := by
  induction l with
  | nil => simp at h
  | cons p rest ih =>
    by_cases hp : p.1 = k
    · subst hp
      have hset : setAssoc (p :: rest) p.1 v = (p.1, v) :: rest := by simp [setAssoc]
      rw [hset]
      simp only [List.map_cons, List.mem_cons] at h ⊢
      rcases h with h | h
      · exact Or.inl h
      · exact Or.inr h
    · simp only [List.map_cons, List.mem_cons] at h
      rcases h with h | h
      · simp [setAssoc, hp, List.map_cons, h]
      · simp only [setAssoc, if_neg hp, List.map_cons, List.mem_cons]
        exact Or.inr (ih h)

/-! ## Guest object fields and checkpoint serialization

A single attribute in the guest object's `__dict__`.  The payload is
abstract (`data`); the two flags record whether Python's `callable`
holds of the value and whether `pickle.dumps` succeeds on it (the
data-only serializer of the spec). -/

theorem serializeState_aux (fields : List (String × FieldVal)) :
    ∀ acc, fields.foldl (fun acc p => if serialOK p then acc ++ [p] else acc) acc
      = acc ++ fields.filter serialOK := by
  induction fields with
  | nil => intro acc; simp
  | cons p rest ih =>
    intro acc
    by_cases h : serialOK p
    · simp [List.foldl_cons, h, ih, List.filter_cons]
    · simp [List.foldl_cons, h, ih, List.filter_cons]

theorem serializeState_eq_filter (fields : List (String × FieldVal)) :
    serializeState fields = fields.filter serialOK := by
  simpa using serializeState_aux fields []

/-! ## The worker processes (`_worker_execute_bid`, `_worker_update_agent`) -/

theorem le_maxD {l : List ℚ} {x : ℚ} (h : x ∈ l) (d : ℚ) : x ≤ maxD l d := by
  induction l with
  | nil => simp at h
  | cons y ys ih =>
    rcases List.mem_cons.mp h with h | h
    · subst h; exact le_max_left _ _
    · exact le_trans (ih h) (le_max_right _ _)

theorem default_le_maxD (l : List ℚ) (d : ℚ) : d ≤ maxD l d := by
  induction l with
  | nil => exact le_refl d
  | cons y ys ih => exact le_trans ih (le_max_right _ _)

theorem maxD_le {l : List ℚ} {d b : ℚ} (h : ∀ x ∈ l, x ≤ b) (hd : d ≤ b) :
    maxD l d ≤ b := by
  induction l with
  | nil => exact hd
  | cons y ys ih =>
    exact max_le (h y (List.mem_cons_self y ys)) (ih fun x hx => h x (List.mem_cons_of_mem y hx))

theorem secondHighest_nonneg (l : List ℚ) : 0 ≤ secondHighest l :=
  default_le_maxD _ 0

theorem secondHighest_le_maxD (l : List ℚ) : secondHighest l ≤ maxD l 0 := by
  refine maxD_le (fun x hx => le_maxD (List.mem_of_mem_erase hx) 0) (default_le_maxD l 0)

theorem bestOf_eq_none {l : List (String × ℚ)} (h : bestOf l = none) : l = [] := by
  cases l with
  | nil => rfl
  | cons p rest =>
    exfalso
    simp only [bestOf] at h
    rcases hb : bestOf rest with _ | q
    · simp only [hb] at h; exact Option.noConfusion h
    · simp only [hb] at h
      by_cases hc : q.2 > p.2 ∨ (q.2 = p.2 ∧ q.1 < p.1)
      · rw [if_pos hc] at h; exact Option.noConfusion h
      · rw [if_neg hc] at h; exact Option.noConfusion h

theorem bestOf_mem {l : List (String × ℚ)} {w : String × ℚ} (h : bestOf l = some w) :
    w ∈ l := by
  induction l with
  | nil => simp [bestOf] at h
  | cons p rest ih =>
    simp only [bestOf] at h
    rcases hb : bestOf rest with _ | q
    · simp only [hb] at h
      exact List.mem_cons.mpr (Or.inl (Option.some.inj h).symm)
    · simp only [hb] at h
      by_cases hc : q.2 > p.2 ∨ (q.2 = p.2 ∧ q.1 < p.1)
      · rw [if_pos hc] at h
        exact List.mem_cons.mpr (Or.inr (ih (hb.trans (congrArg some (Option.some.inj h)))))
      · rw [if_neg hc] at h
        exact List.mem_cons.mpr (Or.inl (Option.some.inj h).symm)

theorem bestOf_le {l : List (String × ℚ)} {w : String × ℚ} (h : bestOf l = some w) :
    ∀ p ∈ l, p.2 ≤ w.2 := by
  induction l generalizing w with
  | nil => simp [bestOf] at h
  | cons p rest ih =>
    intro x hx
    simp only [bestOf] at h
    rcases hb : bestOf rest with _ | q
    · simp only [hb] at h
      have hre : rest = [] := bestOf_eq_none hb
      subst hre
      rcases List.mem_cons.mp hx with hx | hx
      · subst hx; rw [← Option.some.inj h]
      · simp at hx
    · simp only [hb] at h
      by_cases hc : q.2 > p.2 ∨ (q.2 = p.2 ∧ q.1 < p.1)
      · rw [if_pos hc] at h
        have hw : q = w := Option.some.inj h
        subst hw
        rcases List.mem_cons.mp hx with hx | hx
        · subst hx
          rcases hc with hc | hc
          · exact le_of_lt hc
          · exact le_of_eq hc.1.symm
        · exact ih hb x hx
      · rw [if_neg hc] at h
        have hw : p = w := Option.some.inj h
        subst hw
        push_neg at hc
        rcases List.mem_cons.mp hx with hx | hx
        · subst hx; exact le_refl _
        · exact le_trans (ih hb x hx) hc.1

theorem bestOf_tie {l : List (String × ℚ)} {w : String × ℚ} (h : bestOf l = some w) :
    ∀ p ∈ l, p.2 = w.2 → w.1 ≤ p.1 := by
  induction l generalizing w with
  | nil => simp [bestOf] at h
  | cons p rest ih =>
    intro x hx hval
    simp only [bestOf] at h
    rcases hb : bestOf rest with _ | q
    · simp only [hb] at h
      have hre : rest = [] := bestOf_eq_none hb
      subst hre
      rcases List.mem_cons.mp hx with hx | hx
      · subst hx; rw [← Option.some.inj h]
      · simp at hx
    · simp only [hb] at h
      by_cases hc : q.2 > p.2 ∨ (q.2 = p.2 ∧ q.1 < p.1)
      · rw [if_pos hc] at h
        have hw : q = w := Option.some.inj h
        rcases List.mem_cons.mp hx with hx2 | hx2
        · rcases hc with hc | hc
          · exact absurd (hval.trans (congrArg Prod.snd hw).symm)
              (Ne.symm (ne_of_gt (hx2 ▸ hc)))
          · rw [← hw]
            rw [hx2]
            exact le_of_lt hc.2
        · exact ih (hb.trans (congrArg some hw)) x hx2 hval
      · rw [if_neg hc] at h
        have hw : p = w := Option.some.inj h
        push_neg at hc
        rcases List.mem_cons.mp hx with hx2 | hx2
        · rw [hx2, hw]
        · -- x is in rest with the winning value; compare through q
          have hpw : p.2 = w.2 := congrArg Prod.snd hw
          have hxq : x.2 ≤ q.2 := bestOf_le hb x hx2
          have hpq : p.2 ≤ q.2 := by rw [hpw, ← hval]; exact hxq
          have hq : q.2 = p.2 := le_antisymm hc.1 hpq
          have hqw : p.1 ≤ q.1 := hc.2 hq
          have hxv : x.2 = q.2 := by rw [hval, ← hpw, hq]
          have hqx : q.1 ≤ x.1 := ih hb x hx2 hxv
          rw [← hw]
          exact le_trans hqw hqx

theorem clippedBids_nonneg (bids budgets : List (String × ℚ)) :
    ∀ p ∈ clippedBids bids budgets, 0 ≤ p.2 := by
  intro p hp
  simp only [clippedBids, List.mem_map] at hp
  rcases hp with ⟨q, _, rfl⟩
  exact le_max_left _ _

theorem clippedBids_le_budget (bids budgets : List (String × ℚ)) :
    ∀ p ∈ clippedBids bids budgets, p.2 ≤ max 0 (lookupD budgets p.1 0) := by
  intro p hp
  simp only [clippedBids, List.mem_map] at hp
  rcases hp with ⟨q, _, rfl⟩
  exact max_le_max (le_refl 0) (min_le_right _ _)

theorem settle_pricePaid_nonneg (n : Nat) (it : String) (bids budgets : List (String × ℚ)) :
    0 ≤ (settle n it bids budgets).pricePaid := by
  rw [settle]
  rcases hb : bestOf (clippedBids bids budgets) with _ | w
  · simp
  · by_cases hw : 0 < w.2
    · simp only [hw, if_pos]
      exact secondHighest_nonneg _
    · simp only [hw, if_neg, not_false_iff]
      simp [hw]

theorem settle_allBids (n : Nat) (it : String) (bids budgets : List (String × ℚ)) :
    (settle n it bids budgets).allBids = bids := by
  rw [settle]
  rcases bestOf (clippedBids bids budgets) with _ | w
  · rfl
  · by_cases hw : 0 < w.2 <;> simp [hw]

/-! ## The game orchestrator (`game_manager.py`) -/

theorem getState_setState_self (m : ManagerState) (t : String) (s : AgentState) :
    getState (setState m t s) t = some s := by
  simp [getState, setState, lookupA_setAssoc_self]

theorem getState_setState_ne (m : ManagerState) (t u : String) (s : AgentState)
    (h : u ≠ t) : getState (setState m t s) u = getState m u := by
  simp [getState, setState, lookupA_setAssoc_ne _ _ _ _ h]

theorem executeBid_metadata (m : ManagerState) (t : String) (ev : HostBidEvent) :
    ((executeBidWithTimeout m t ev).2).agentMetadata = m.agentMetadata := by
  cases hm : lookupA m.agentMetadata t with
  | none => simp [executeBidWithTimeout, hm]
  | some meta =>
    cases ev with
    | timeout => simp [executeBidWithTimeout, hm]
    | workerMsg msg e =>
      cases msg with
      | success b tt ns => simp [executeBidWithTimeout, hm, setState]
      | error s => simp [executeBidWithTimeout, hm]
    | queueFailure e => simp [executeBidWithTimeout, hm]
    | hostException s e => simp [executeBidWithTimeout, hm]

theorem executeBid_isRegistered (m : ManagerState) (t u : String) (ev : HostBidEvent) :
    isRegistered ((executeBidWithTimeout m t ev).2) u = isRegistered m u := by
  rw [isRegistered, isRegistered, executeBid_metadata]

theorem executeBid_state_of_not_success (m : ManagerState) (t : String) (ev : HostBidEvent)
    (h : isBidSuccessEv ev = false) : (executeBidWithTimeout m t ev).2 = m := by
  cases hm : lookupA m.agentMetadata t with
  | none => simp [executeBidWithTimeout, hm]
  | some meta =>
    cases ev with
    | timeout => simp [executeBidWithTimeout, hm]
    | workerMsg msg e =>
      cases msg with
      | success b tt ns => simp [isBidSuccessEv] at h
      | error s => simp [executeBidWithTimeout, hm]
    | queueFailure e => simp [executeBidWithTimeout, hm]
    | hostException s e => simp [executeBidWithTimeout, hm]

theorem executeBid_success_of_registered (m : ManagerState) (t : String) (b tt : ℚ)
    (ns : AgentState) (e : ℚ) (hreg : isRegistered m t = true) :
    (executeBidWithTimeout m t (.workerMsg (.success b tt ns) e)).2 = setState m t ns := by
  obtain ⟨meta, hm⟩ : ∃ meta, lookupA m.agentMetadata t = some meta := by
    rwa [isRegistered, Option.isSome_iff_exists] at hreg
  simp [executeBidWithTimeout, hm]

theorem executeBid_getState_ne (m : ManagerState) (t : String) (ev : HostBidEvent)
    (u : String) (h : u ≠ t) :
    getState ((executeBidWithTimeout m t ev).2) u = getState m u := by
  cases hm : lookupA m.agentMetadata t with
  | none => simp [executeBidWithTimeout, hm]
  | some meta =>
    cases ev with
    | timeout => simp [executeBidWithTimeout, hm]
    | workerMsg msg e =>
      cases msg with
      | success b tt ns =>
        simp only [executeBidWithTimeout, hm]
        exact getState_setState_ne m t u ns h
      | error s => simp [executeBidWithTimeout, hm]
    | queueFailure e => simp [executeBidWithTimeout, hm]
    | hostException s e => simp [executeBidWithTimeout, hm]

theorem update_metadata (m : ManagerState) (t it w : String) (p : ℚ) (ev : HostUpdateEvent) :
    ((updateAgentAfterRound m t it w p ev).2).agentMetadata = m.agentMetadata := by
  cases hm : lookupA m.agentMetadata t with
  | none => simp [updateAgentAfterRound, hm]
  | some meta =>
    cases hs : getState m t with
    | none => simp [updateAgentAfterRound, hm, hs]
    | some s =>
      cases ev with
      | timeout => simp [updateAgentAfterRound, hm, hs]
      | workerMsg msg =>
        cases msg with
        | success ns => simp [updateAgentAfterRound, hm, hs, setState]
        | error s2 => simp [updateAgentAfterRound, hm, hs]
      | queueFailure => simp [updateAgentAfterRound, hm, hs]
      | hostException s2 => simp [updateAgentAfterRound, hm, hs]

theorem update_isRegistered (m : ManagerState) (t it w : String) (p : ℚ)
    (ev : HostUpdateEvent) (u : String) :
    isRegistered ((updateAgentAfterRound m t it w p ev).2) u = isRegistered m u := by
  rw [isRegistered, isRegistered, update_metadata]

theorem update_state_of_not_success (m : ManagerState) (t it w : String) (p : ℚ)
    (ev : HostUpdateEvent) (h : isUpdSuccessEv ev = false) :
    (updateAgentAfterRound m t it w p ev).2 = m := by
  cases hm : lookupA m.agentMetadata t with
  | none => simp [updateAgentAfterRound, hm]
  | some meta =>
    cases hs : getState m t with
    | none => simp [updateAgentAfterRound, hm, hs]
    | some s =>
      cases ev with
      | timeout => simp [updateAgentAfterRound, hm, hs]
      | workerMsg msg =>
        cases msg with
        | success ns => simp [isUpdSuccessEv] at h
        | error s2 => simp [updateAgentAfterRound, hm, hs]
      | queueFailure => simp [updateAgentAfterRound, hm, hs]
      | hostException s2 => simp [updateAgentAfterRound, hm, hs]

theorem update_success_of (m : ManagerState) (t it w : String) (p : ℚ) (ns s0 : AgentState)
    (hreg : isRegistered m t = true) (hst : getState m t = some s0) :
    (updateAgentAfterRound m t it w p (.workerMsg (.success ns))).2 = setState m t ns := by
  obtain ⟨meta, hm⟩ : ∃ meta, lookupA m.agentMetadata t = some meta := by
    rwa [isRegistered, Option.isSome_iff_exists] at hreg
  simp [updateAgentAfterRound, hm, hst]

theorem update_getState_ne (m : ManagerState) (t it w : String) (p : ℚ)
    (ev : HostUpdateEvent) (u : String) (h : u ≠ t) :
    getState ((updateAgentAfterRound m t it w p ev).2) u = getState m u := by
  cases hm : lookupA m.agentMetadata t with
  | none => simp [updateAgentAfterRound, hm]
  | some meta =>
    cases hs : getState m t with
    | none => simp [updateAgentAfterRound, hm, hs]
    | some s =>
      cases ev with
      | timeout => simp [updateAgentAfterRound, hm, hs]
      | workerMsg msg =>
        cases msg with
        | success ns =>
          simp only [updateAgentAfterRound, hm, hs]
          exact getState_setState_ne m t u ns h
        | error s2 => simp [updateAgentAfterRound, hm, hs]
      | queueFailure => simp [updateAgentAfterRound, hm, hs]
      | hostException s2 => simp [updateAgentAfterRound, hm, hs]

/-! ## Loop lemmas -/

theorem collectBids_cons (u : String) (rest : List String) (events : String → HostBidEvent)
    (m : ManagerState) :
    collectBids (u :: rest) events m =
      ((u, (executeBidWithTimeout m u (events u)).1.bid) ::
        (collectBids rest events (executeBidWithTimeout m u (events u)).2).1,
       (collectBids rest events (executeBidWithTimeout m u (events u)).2).2) := rfl

theorem collectBids_fst (teams : List String) (events : String → HostBidEvent)
    (m : ManagerState) : (collectBids teams events m).1.map Prod.fst = teams := by
  induction teams generalizing m with
  | nil => rfl
  | cons u rest ih => rw [collectBids_cons]; simp [ih]

theorem collectBids_metadata (teams : List String) (events : String → HostBidEvent)
    (m : ManagerState) :
    ((collectBids teams events m).2).agentMetadata = m.agentMetadata := by
  induction teams generalizing m with
  | nil => rfl
  | cons u rest ih => rw [collectBids_cons]; rw [ih, executeBid_metadata]

theorem collectBids_isRegistered (teams : List String) (events : String → HostBidEvent)
    (m : ManagerState) (u : String) :
    isRegistered ((collectBids teams events m).2) u = isRegistered m u := by
  rw [isRegistered, isRegistered, collectBids_metadata]

theorem collectBids_getState_of_not_success (teams : List String)
    (events : String → HostBidEvent) (m : ManagerState) (t : String)
    (h : isBidSuccessEv (events t) = false) :
    getState ((collectBids teams events m).2) t = getState m t := by
  induction teams generalizing m with
  | nil => rfl
  | cons u rest ih =>
    rw [collectBids_cons]
    rw [ih]
    by_cases hu : u = t
    · subst hu; rw [executeBid_state_of_not_success m u (events u) h]
    · exact executeBid_getState_ne m u (events u) t (Ne.symm hu)

theorem collectBids_getState_of_notMem (teams : List String)
    (events : String → HostBidEvent) (m : ManagerState) (t : String)
    (h : t ∉ teams) :
    getState ((collectBids teams events m).2) t = getState m t := by
  induction teams generalizing m with
  | nil => rfl
  | cons u rest ih =>
    rw [collectBids_cons]
    rw [ih _ (fun hmem => h (List.mem_cons_of_mem u hmem))]
    exact executeBid_getState_ne m u (events u) t
      (fun he => h (he ▸ List.mem_cons_self u rest))

theorem runUpdates_cons (u : String) (rest : List String) (it w : String) (p : ℚ)
    (events : String → HostUpdateEvent) (m : ManagerState) :
    runUpdates (u :: rest) it w p events m =
      (⟨u, it, w, p⟩ ::
        (runUpdates rest it w p events (updateAgentAfterRound m u it w p (events u)).2).1,
       (runUpdates rest it w p events (updateAgentAfterRound m u it w p (events u)).2).2) := rfl

theorem runUpdates_calls (teams : List String) (it w : String) (p : ℚ)
    (events : String → HostUpdateEvent) (m : ManagerState) :
    (runUpdates teams it w p events m).1 = teams.map (fun u => ⟨u, it, w, p⟩) := by
  induction teams generalizing m with
  | nil => rfl
  | cons u rest ih => rw [runUpdates_cons]; simp [ih]

theorem runUpdates_getState_of_notMem (teams : List String) (it w : String) (p : ℚ)
    (events : String → HostUpdateEvent) (m : ManagerState) (t : String)
    (h : t ∉ teams) :
    getState ((runUpdates teams it w p events m).2) t = getState m t := by
  induction teams generalizing m with
  | nil => rfl
  | cons u rest ih =>
    rw [runUpdates_cons]
    rw [ih _ (fun hmem => h (List.mem_cons_of_mem u hmem))]
    exact update_getState_ne m u it w p (events u) t
      (fun he => h (he ▸ List.mem_cons_self u rest))

theorem runUpdates_getState_success (teams : List String) (it w : String) (p : ℚ)
    (events : String → HostUpdateEvent) (m : ManagerState) (t : String)
    (ns s0 : AgentState) (hnd : teams.Nodup) (hmem : t ∈ teams)
    (hreg : isRegistered m t = true) (hst : getState m t = some s0)
    (hev : events t = .workerMsg (.success ns)) :
    getState ((runUpdates teams it w p events m).2) t = some ns := by
  induction teams generalizing m with
  | nil => simp at hmem
  | cons u rest ih =>
    rw [runUpdates_cons]
    rcases List.mem_cons.mp hmem with he | hmem2
    · subst he
      have hstep : (updateAgentAfterRound m t it w p (events t)).2 = setState m t ns := by
        rw [hev]; exact update_success_of m t it w p ns s0 hreg hst
      rw [hstep]
      have hrest : t ∉ rest := (List.nodup_cons.mp hnd).1
      rw [runUpdates_getState_of_notMem rest it w p events _ t hrest]
      exact getState_setState_self m t ns
    · have hut : u ≠ t := by
        intro he2
        exact (List.nodup_cons.mp hnd).1 (he2 ▸ hmem2)
      have hpres : getState ((updateAgentAfterRound m u it w p (events u)).2) t
          = getState m t := update_getState_ne m u it w p (events u) t (Ne.symm hut)
      exact ih _ (List.nodup_cons.mp hnd).2 hmem2
        (by rw [update_isRegistered]; exact hreg) (by rw [hpres]; exact hst)

/-! ## Round-call machinery lemmas -/

theorem runCalls_append (env : RoundEnv) (it w : String) (p : ℚ) (m : ManagerState)
    (cs1 cs2 : List RoundCall) :
    runCalls env it w p m (cs1 ++ cs2) = runCalls env it w p (runCalls env it w p m cs1) cs2 := by
  induction cs1 generalizing m with
  | nil => rfl
  | cons c cs ih => simp [runCalls, ih]

theorem collectBids_eq_runCalls (teams : List String) (env : RoundEnv) (it w : String)
    (p : ℚ) (m : ManagerState) :
    (collectBids teams env.bidEvents m).2 =
      runCalls env it w p m (teams.map RoundCall.bidCall) := by
  induction teams generalizing m with
  | nil => rfl
  | cons u rest ih =>
    rw [collectBids_cons]
    simp only [List.map_cons, runCalls, applyCall]
    exact ih _

theorem runUpdates_eq_runCalls (teams : List String) (env : RoundEnv) (it w : String)
    (p : ℚ) (m : ManagerState) :
    (runUpdates teams it w p env.updateEvents m).2 =
      runCalls env it w p m (teams.map RoundCall.updateCall) := by
  induction teams generalizing m with
  | nil => rfl
  | cons u rest ih =>
    rw [runUpdates_cons]
    simp only [List.map_cons, runCalls, applyCall]
    exact ih _

theorem executeAuctionRound_result (gs : GameState) (n : Nat) (it : String) (env : RoundEnv) :
    (executeAuctionRound gs n it env).result =
      settle n it (collectBids gs.agents env.bidEvents gs.manager).1 gs.budgets := rfl

theorem executeAuctionRound_updCalls (gs : GameState) (n : Nat) (it : String) (env : RoundEnv) :
    (executeAuctionRound gs n it env).updCalls =
      (runUpdates gs.agents it
        ((settle n it (collectBids gs.agents env.bidEvents gs.manager).1 gs.budgets).winnerId.getD "")
        (settle n it (collectBids gs.agents env.bidEvents gs.manager).1 gs.budgets).pricePaid
        env.updateEvents (collectBids gs.agents env.bidEvents gs.manager).2).1 := rfl

theorem executeAuctionRound_manager (gs : GameState) (n : Nat) (it : String) (env : RoundEnv) :
    (executeAuctionRound gs n it env).state.manager =
      (runUpdates gs.agents it
        ((settle n it (collectBids gs.agents env.bidEvents gs.manager).1 gs.budgets).winnerId.getD "")
        (settle n it (collectBids gs.agents env.bidEvents gs.manager).1 gs.budgets).pricePaid
        env.updateEvents (collectBids gs.agents env.bidEvents gs.manager).2).2 := rfl

theorem executeAuctionRound_agents (gs : GameState) (n : Nat) (it : String) (env : RoundEnv) :
    (executeAuctionRound gs n it env).state.agents = gs.agents := rfl

theorem executeAuctionRound_budgets (gs : GameState) (n : Nat) (it : String) (env : RoundEnv) :
    (executeAuctionRound gs n it env).state.budgets =
      (match (settle n it (collectBids gs.agents env.bidEvents gs.manager).1 gs.budgets).winnerId with
       | some w =>
         if w = "" then gs.budgets
         else setAssoc gs.budgets w (lookupD gs.budgets w 0 -
           (settle n it (collectBids gs.agents env.bidEvents gs.manager).1 gs.budgets).pricePaid)
       | none => gs.budgets) := rfl

theorem applyCall_preserve (env : RoundEnv) (it w : String) (p : ℚ) (m : ManagerState)
    (t : String) (c : RoundCall) (h : mayChange env t c = false) :
    getState (applyCall env it w p m c) t = getState m t := by
  cases c with
  | bidCall u =>
    by_cases hu : u = t
    · subst hu
      have h2 : isBidSuccessEv (env.bidEvents u) = false := by
        simpa [mayChange] using h
      rw [applyCall, executeBid_state_of_not_success m u (env.bidEvents u) h2]
    · exact executeBid_getState_ne m u (env.bidEvents u) t (Ne.symm hu)
  | updateCall u =>
    by_cases hu : u = t
    · subst hu
      have h2 : isUpdSuccessEv (env.updateEvents u) = false := by
        simpa [mayChange] using h
      rw [applyCall, update_state_of_not_success m u it w p (env.updateEvents u) h2]
    · exact update_getState_ne m u it w p (env.updateEvents u) t (Ne.symm hu)

theorem callStates_head (env : RoundEnv) (it w : String) (p : ℚ) (m : ManagerState)
    (cs : List RoundCall) :
    ∃ T, callStates env it w p m cs = m :: T := by
  cases cs with
  | nil => exact ⟨[], rfl⟩
  | cons c cs2 => exact ⟨_, rfl⟩

theorem callStates_getLast (env : RoundEnv) (it w : String) (p : ℚ) (m : ManagerState)
    (cs : List RoundCall) :
    (callStates env it w p m cs).getLast? = some (runCalls env it w p m cs) := by
  induction cs generalizing m with
  | nil => rfl
  | cons c cs2 ih =>
    obtain ⟨T, hT⟩ := callStates_head env it w p
      (applyCall env it w p m c) cs2
    rw [callStates, runCalls, hT, List.getLast?_cons_cons, ← hT, ih]

theorem countChanges_callStates (env : RoundEnv) (it w : String) (p : ℚ) (t : String) :
    ∀ (cs : List RoundCall) (m : ManagerState),
      countChanges ((callStates env it w p m cs).map (fun s => getState s t)) ≤
        (cs.filter (mayChange env t)).length := by
  intro cs
  induction cs with
  | nil => intro m; simp [callStates, countChanges]
  | cons c cs2 ih =>
    intro m
    obtain ⟨T, hT⟩ := callStates_head env it w p (applyCall env it w p m c) cs2
    rw [callStates, hT]
    simp only [List.map_cons]
    rw [countChanges]
    have hTail := ih (applyCall env it w p m c)
    rw [hT] at hTail
    simp only [List.map_cons] at hTail
    by_cases hmc : mayChange env t c
    · calc (if getState m t = getState (applyCall env it w p m c) t then 0 else 1) +
            countChanges (getState (applyCall env it w p m c) t :: T.map (fun s => getState s t))
          ≤ 1 + (cs2.filter (mayChange env t)).length := by
            have hle : (if getState m t = getState (applyCall env it w p m c) t
                then 0 else 1) ≤ 1 := by split <;> omega
            omega
        _ = ((c :: cs2).filter (mayChange env t)).length := by
            rw [List.filter_cons, if_pos (by simpa using hmc)]
            simp [Nat.add_comm]
    · have heq : getState (applyCall env it w p m c) t = getState m t :=
        applyCall_preserve env it w p m t c (by simpa using hmc)
      rw [heq] at hTail ⊢
      rw [if_pos rfl]
      rw [List.filter_cons, if_neg (by simpa using hmc)]
      omega

/-! ## Filter bounds over the calls of one round -/

theorem filter_bidCalls_of_notMem (env : RoundEnv) (t : String) (teams : List String)
    (h : t ∉ teams) :
    (teams.map RoundCall.bidCall).filter (mayChange env t) = [] := by
  induction teams with
  | nil => rfl
  | cons u rest ih =>
    have hu : u ≠ t := fun he => h (he ▸ List.mem_cons_self u rest)
    have ht : t ∉ rest := fun hm => h (List.mem_cons_of_mem u hm)
    simp [List.filter_cons, mayChange, hu, ih ht]

theorem filter_updCalls_of_notMem (env : RoundEnv) (t : String) (teams : List String)
    (h : t ∉ teams) :
    (teams.map RoundCall.updateCall).filter (mayChange env t) = [] := by
  induction teams with
  | nil => rfl
  | cons u rest ih =>
    have hu : u ≠ t := fun he => h (he ▸ List.mem_cons_self u rest)
    have ht : t ∉ rest := fun hm => h (List.mem_cons_of_mem u hm)
    simp [List.filter_cons, mayChange, hu, ih ht]

theorem filter_bidCalls_le_one (env : RoundEnv) (t : String) (teams : List String)
    (hnd : teams.Nodup) :
    ((teams.map RoundCall.bidCall).filter (mayChange env t)).length ≤ 1 := by
  induction teams with
  | nil => simp
  | cons u rest ih =>
    obtain ⟨hu, hnd2⟩ := List.nodup_cons.mp hnd
    by_cases hut : u = t
    · subst hut
      rw [List.map_cons, List.filter_cons]
      rw [filter_bidCalls_of_notMem env u rest hu]
      by_cases hmc : mayChange env u (RoundCall.bidCall u) = true
      · rw [if_pos hmc]; simp
      · rw [if_neg hmc]; simp
    · rw [List.map_cons, List.filter_cons]
      have hfc : mayChange env t (RoundCall.bidCall u) = false := by
        simp [mayChange, hut]
      rw [if_neg (by simp [hfc])]
      exact ih hnd2

theorem filter_updCalls_le_one (env : RoundEnv) (t : String) (teams : List String)
    (hnd : teams.Nodup) :
    ((teams.map RoundCall.updateCall).filter (mayChange env t)).length ≤ 1 := by
  induction teams with
  | nil => simp
  | cons u rest ih =>
    obtain ⟨hu, hnd2⟩ := List.nodup_cons.mp hnd
    by_cases hut : u = t
    · subst hut
      rw [List.map_cons, List.filter_cons]
      rw [filter_updCalls_of_notMem env u rest hu]
      by_cases hmc : mayChange env u (RoundCall.updateCall u) = true
      · rw [if_pos hmc]; simp
      · rw [if_neg hmc]; simp
    · rw [List.map_cons, List.filter_cons]
      have hfc : mayChange env t (RoundCall.updateCall u) = false := by
        simp [mayChange, hut]
      rw [if_neg (by simp [hfc])]
      exact ih hnd2

theorem filter_bidCalls_of_fail (env : RoundEnv) (t : String) (teams : List String)
    (h : isBidSuccessEv (env.bidEvents t) = false) :
    (teams.map RoundCall.bidCall).filter (mayChange env t) = [] := by
  induction teams with
  | nil => rfl
  | cons u rest ih =>
    by_cases hut : u = t
    · subst hut
      simp [List.filter_cons, mayChange, h, ih]
    · simp [List.filter_cons, mayChange, hut, ih]

theorem filter_updCalls_of_fail (env : RoundEnv) (t : String) (teams : List String)
    (h : isUpdSuccessEv (env.updateEvents t) = false) :
    (teams.map RoundCall.updateCall).filter (mayChange env t) = [] := by
  induction teams with
  | nil => rfl
  | cons u rest ih =>
    by_cases hut : u = t
    · subst hut
      simp [List.filter_cons, mayChange, h, ih]
    · simp [List.filter_cons, mayChange, hut, ih]

theorem getLast?_map_states (f : ManagerState → Option AgentState) (l : List ManagerState) :
    (l.map f).getLast? = (l.getLast?).map f := by
  induction l with
  | nil => rfl
  | cons a l2 ih =>
    cases l2 with
    | nil => rfl
    | cons b l3 =>
      rw [List.map_cons, List.map_cons, List.getLast?_cons_cons, List.getLast?_cons_cons,
        ← List.map_cons, ih]

theorem executeAuctionRound_manager_runCalls (gs : GameState) (n : Nat) (it : String)
    (env : RoundEnv) :
    (executeAuctionRound gs n it env).state.manager =
      runCalls env it
        ((settle n it (collectBids gs.agents env.bidEvents gs.manager).1 gs.budgets).winnerId.getD "")
        (settle n it (collectBids gs.agents env.bidEvents gs.manager).1 gs.budgets).pricePaid
        gs.manager (roundCalls gs.agents) := by
  rw [executeAuctionRound_manager, runUpdates_eq_runCalls, roundCalls, runCalls_append,
    collectBids_eq_runCalls gs.agents env it
      ((settle n it (collectBids gs.agents env.bidEvents gs.manager).1 gs.budgets).winnerId.getD "")
      (settle n it (collectBids gs.agents env.bidEvents gs.manager).1 gs.budgets).pricePaid
      gs.manager]

/-! ## Settlement case equations -/

theorem lookupA_eq_none_of_notMem {α : Type} (l : List (String × α)) (k : String)
    (h : k ∉ l.map Prod.fst) : lookupA l k = none := by
  induction l with
  | nil => rfl
  | cons p rest ih =>
    have hp : p.1 ≠ k := fun he => h (by simp [he])
    rw [lookupA, if_neg hp]
    exact ih (fun hm => h (by simp [hm]))

theorem clip_zero (b : ℚ) : clip b 0 = 0 :=
  max_eq_left (min_le_right b 0)

theorem settle_none_eq (n : Nat) (it : String) (bids budgets : List (String × ℚ))
    (hb : bestOf (clippedBids bids budgets) = none) :
    settle n it bids budgets = ⟨n, it, none, 0, bids⟩ := by
  rw [settle]
  simp only [hb]

theorem settle_nonpos_eq (n : Nat) (it : String) (bids budgets : List (String × ℚ))
    (wv : String × ℚ) (hb : bestOf (clippedBids bids budgets) = some wv) (hv : ¬ 0 < wv.2) :
    settle n it bids budgets = ⟨n, it, none, 0, bids⟩ := by
  rw [settle]
  simp only [hb]
  rw [if_neg hv]

theorem settle_winner_eq (n : Nat) (it : String) (bids budgets : List (String × ℚ))
    (wv : String × ℚ) (hb : bestOf (clippedBids bids budgets) = some wv) (hv : 0 < wv.2) :
    settle n it bids budgets =
      ⟨n, it, some wv.1, secondHighest ((clippedBids bids budgets).map Prod.snd), bids⟩ := by
  rw [settle]
  simp only [hb]
  rw [if_pos hv]

/-! ## Budget lemmas -/

theorem round_budgets_mono (gs : GameState) (n : Nat) (it : String) (env : RoundEnv)
    (u : String) :
    lookupD (executeAuctionRound gs n it env).state.budgets u 0 ≤ lookupD gs.budgets u 0 := by
  rw [executeAuctionRound_budgets]
  rcases hw : (settle n it (collectBids gs.agents env.bidEvents gs.manager).1 gs.budgets).winnerId
    with _ | w
  · exact le_refl _
  · dsimp only
    by_cases hww : w = ""
    · rw [if_pos hww]
    · rw [if_neg hww]
      by_cases hu : u = w
      · subst hu
        rw [lookupD, lookupA_setAssoc_self]
        have hp := settle_pricePaid_nonneg n it
          (collectBids gs.agents env.bidEvents gs.manager).1 gs.budgets
        simp only [Option.getD_some]
        linarith [hp]
      · rw [lookupD, lookupA_setAssoc_ne _ _ _ _ hu, lookupD]

theorem runRounds_cons (gs : GameState) (n : Nat) (it : String) (env : RoundEnv)
    (rest : List (Nat × String × RoundEnv)) :
    runRounds gs ((n, it, env) :: rest) =
      ((executeAuctionRound gs n it env).result ::
        (runRounds (executeAuctionRound gs n it env).state rest).1,
       (runRounds (executeAuctionRound gs n it env).state rest).2) := rfl

theorem runRounds_budgets_mono (rounds : List (Nat × String × RoundEnv)) (gs : GameState)
    (u : String) :
    lookupD (runRounds gs rounds).2.budgets u 0 ≤ lookupD gs.budgets u 0 := by
  induction rounds generalizing gs with
  | nil => exact le_refl _
  | cons r rest ih =>
    obtain ⟨n, it, env⟩ := r
    rw [runRounds_cons]
    exact le_trans (ih _) (round_budgets_mono gs n it env u)

/-! ## Initialization lemmas -/

theorem loadAgents_cons (ids : List String) (vals : String → List (String × ℚ)) (b : ℚ)
    (loads : String → Bool) (m : ManagerState) (u f : String)
    (rest : List (String × String)) :
    loadAgents ids vals b loads m ((u, f) :: rest) =
      (if loads u then
        loadAgents ids vals b loads
          (registerAgent m u ⟨f, u, vals u, b, ids.filter (fun x => x ≠ u)⟩) rest
      else none) := rfl

theorem loadAgents_none (ids : List String) (vals : String → List (String × ℚ)) (b : ℚ)
    (loads : String → Bool) (t : String) (hfail : loads t = false) :
    ∀ (l : List (String × String)) (m : ManagerState), t ∈ l.map Prod.fst →
      loadAgents ids vals b loads m l = none := by
  intro l
  induction l with
  | nil => intro m hm; simp at hm
  | cons p rest ih =>
    intro m hm
    obtain ⟨u, f⟩ := p
    rw [loadAgents_cons]
    by_cases hl : loads u = true
    · rw [if_pos hl]
      have hm2 : t = u ∨ t ∈ rest.map Prod.fst := by
        rw [List.map_cons] at hm
        exact List.mem_cons.mp hm
      rcases hm2 with he | hmem
      · exfalso; rw [he] at hfail; rw [hfail] at hl; exact Bool.noConfusion hl
      · exact ih _ hmem
    · rw [if_neg hl]

/-! ## String helper -/

theorem append_ne_empty_left (a b : String) (h : a.length ≠ 0) : (a ++ b) ≠ "" := by
  intro he
  have hlen := congrArg String.length he
  rw [String.length_append] at hlen
  have hz : ("" : String).length = 0 := rfl
  rw [hz] at hlen
  omega

/-! ## Claim theorems -/

/-- Claim C2: for all bid maps and budget maps, `settle` clips every bid
to `[0, budget[team]]` (a team absent from the budget map gives 0),
awards the item to the strictly highest clipped bid with the
deterministic lexicographic tie-break, returns `price_paid` equal to
exactly the second-highest clipped bid and at most the winning clipped
bid, and declares no winner when the highest clipped bid is 0. -/
theorem settle_spec (n : Nat) (it : String) (bids budgets : List (String × ℚ)) :
    clippedBids bids budgets =
      bids.map (fun q => (q.1, max 0 (min q.2 (lookupD budgets q.1 0)))) ∧
    (∀ q ∈ bids, q.1 ∉ budgets.map Prod.fst → (q.1, (0:ℚ)) ∈ clippedBids bids budgets) ∧
    (∀ q ∈ clippedBids bids budgets, 0 ≤ q.2) ∧
    (maxD ((clippedBids bids budgets).map Prod.snd) 0 = 0 →
      (settle n it bids budgets).winnerId = none ∧ (settle n it bids budgets).pricePaid = 0) ∧
    (∀ w v, bestOf (clippedBids bids budgets) = some (w, v) → 0 < v →
      (settle n it bids budgets).winnerId = some w ∧
      (settle n it bids budgets).pricePaid =
        secondHighest ((clippedBids bids budgets).map Prod.snd) ∧
      (settle n it bids budgets).pricePaid ≤ v ∧
      (∀ q ∈ clippedBids bids budgets, q.2 ≤ v) ∧
      (∀ q ∈ clippedBids bids budgets, q.2 = v → w ≤ q.1)) := by
  refine ⟨rfl, ?_, clippedBids_nonneg bids budgets, ?_, ?_⟩
  · intro q hq hnb
    have hl : lookupA budgets q.1 = none := lookupA_eq_none_of_notMem budgets q.1 hnb
    have hc : clip q.2 (lookupD budgets q.1 0) = 0 := by
      rw [lookupD, hl, Option.getD_none]
      exact clip_zero q.2
    have hmem : (q.1, clip q.2 (lookupD budgets q.1 0)) ∈ clippedBids bids budgets :=
      List.mem_map.mpr ⟨q, hq, rfl⟩
    rw [hc] at hmem
    exact hmem
  · intro hmax
    rcases hb : bestOf (clippedBids bids budgets) with _ | wv
    · rw [settle_none_eq n it bids budgets hb]; exact ⟨rfl, rfl⟩
    · have hwmem := bestOf_mem hb
      have hle : wv.2 ≤ maxD ((clippedBids bids budgets).map Prod.snd) 0 :=
        le_maxD (List.mem_map.mpr ⟨wv, hwmem, rfl⟩) 0
      have hv : ¬ 0 < wv.2 := not_lt.mpr (hmax ▸ hle)
      rw [settle_nonpos_eq n it bids budgets wv hb hv]; exact ⟨rfl, rfl⟩
  · intro w v hb hv
    rw [settle_winner_eq n it bids budgets (w, v) hb hv]
    refine ⟨rfl, rfl, ?_, ?_, ?_⟩
    · have h1 := secondHighest_le_maxD ((clippedBids bids budgets).map Prod.snd)
      have h2 : maxD ((clippedBids bids budgets).map Prod.snd) 0 ≤ v := by
        refine maxD_le ?_ (le_of_lt hv)
        intro x hx
        rcases List.mem_map.mp hx with ⟨q, hq, rfl⟩
        exact bestOf_le hb q hq
      exact le_trans h1 h2
    · intro q hq; exact bestOf_le hb q hq
    · intro q hq hqv; exact bestOf_tie hb q hq hqv

/-- Witness for C2 at the spec's scenario: A wins at price 15, which is
at most A's clipped bid of 20. -/
theorem settle_spec_witness :
    bestOf (clippedBids bidsW budgetsW) = some ("A", 20) ∧ ((0:ℚ) < 20) ∧
    (settle 1 "item_0" bidsW budgetsW).winnerId = some "A" ∧
    (settle 1 "item_0" bidsW budgetsW).pricePaid =
      secondHighest ((clippedBids bidsW budgetsW).map Prod.snd) ∧
    (settle 1 "item_0" bidsW budgetsW).pricePaid ≤ 20 ∧
    secondHighest ((clippedBids bidsW budgetsW).map Prod.snd) = 15 := by
  have h := ((settle_spec 1 "item_0" bidsW budgetsW).2.2.2.2) "A" 20 (by decide) (by decide)
  exact ⟨by decide, by decide, h.1, h.2.1, h.2.2.1, by decide⟩

/-! ## Concrete fixtures -/

/-- Claim C1: for every registered team, a bid call that times out
returns the triple `(0.0, timeout_seconds, "Timeout")` and leaves the
whole manager state — in particular every stored checkpoint —
unchanged. -/
theorem bid_timeout_keeps_checkpoint (m : ManagerState) (t : String)
    (hreg : isRegistered m t = true) :
    executeBidWithTimeout m t HostBidEvent.timeout =
      (⟨0, m.timeoutSeconds, some "Timeout"⟩, m) ∧
    ∀ u, getState (executeBidWithTimeout m t HostBidEvent.timeout).2 u = getState m u := by
  obtain ⟨meta, hm⟩ : ∃ meta, lookupA m.agentMetadata t = some meta := by
    rwa [isRegistered, Option.isSome_iff_exists] at hreg
  constructor
  · simp [executeBidWithTimeout, hm]
  · intro u; simp [executeBidWithTimeout, hm]

/-- Witness for C1 at a concrete manager state. -/
theorem bid_timeout_keeps_checkpoint_witness :
    isRegistered mgrW "alpha" = true ∧
    executeBidWithTimeout mgrW "alpha" HostBidEvent.timeout =
      (⟨0, 3, some "Timeout"⟩, mgrW) ∧
    getState (executeBidWithTimeout mgrW "alpha" HostBidEvent.timeout).2 "alpha" =
      getState mgrW "alpha" := by
  refine ⟨by decide, ?_, (bid_timeout_keeps_checkpoint mgrW "alpha" (by decide)).2 "alpha"⟩
  have h := (bid_timeout_keeps_checkpoint mgrW "alpha" (by decide)).1
  rw [h]
  rfl

/-- Claim C5: every guest exception, malformed return or failed result
retrieval during a bid call is absorbed: `execute_bid_with_timeout`
returns a triple (it is a total function, so it never raises) with
bid 0.0 and a non-empty error description, and the round loop still
collects a bid entry for every registered team. -/
theorem bid_failures_absorbed (m : ManagerState) (t : String) (ev : HostBidEvent)
    (hreg : isRegistered m t = true) (hfail : isBidFailureEv ev = true) :
    (executeBidWithTimeout m t ev).1.bid = 0 ∧
    (∃ s, (executeBidWithTimeout m t ev).1.error = some s ∧ s ≠ "") ∧
    ∀ (gs : GameState) (n : Nat) (it : String) (env : RoundEnv),
      ((executeAuctionRound gs n it env).result.allBids).map Prod.fst = gs.agents := by
  obtain ⟨meta, hm⟩ : ∃ meta, lookupA m.agentMetadata t = some meta := by
    rwa [isRegistered, Option.isSome_iff_exists] at hreg
  have hmain : (executeBidWithTimeout m t ev).1.bid = 0 ∧
      ∃ s, (executeBidWithTimeout m t ev).1.error = some s ∧ s ≠ "" := by
    cases ev with
    | timeout => simp [isBidFailureEv] at hfail
    | workerMsg msg e =>
      cases msg with
      | success b tt ns => simp [isBidFailureEv] at hfail
      | error s =>
        exact ⟨by simp [executeBidWithTimeout, hm], "Error: " ++ s,
          by simp [executeBidWithTimeout, hm], append_ne_empty_left _ _ (by decide)⟩
    | queueFailure e =>
      exact ⟨by simp [executeBidWithTimeout, hm], "No result returned",
        by simp [executeBidWithTimeout, hm], by decide⟩
    | hostException s e =>
      exact ⟨by simp [executeBidWithTimeout, hm], "Exception: " ++ s,
        by simp [executeBidWithTimeout, hm], append_ne_empty_left _ _ (by decide)⟩
  exact ⟨hmain.1, hmain.2, fun gs n it env => by
    rw [executeAuctionRound_result, settle_allBids, collectBids_fst]⟩

/-- Witness for C5 at a concrete guest error. -/
theorem bid_failures_absorbed_witness :
    isRegistered mgrW "alpha" = true ∧
    isBidFailureEv (HostBidEvent.workerMsg (.error "boom") 1) = true ∧
    (executeBidWithTimeout mgrW "alpha" (.workerMsg (.error "boom") 1)).1.bid = 0 ∧
    (∃ s, (executeBidWithTimeout mgrW "alpha"
      (.workerMsg (.error "boom") 1)).1.error = some s ∧ s ≠ "") :=
  ⟨by decide, by decide,
    (bid_failures_absorbed mgrW "alpha" _ (by decide) (by decide)).1,
    (bid_failures_absorbed mgrW "alpha" _ (by decide) (by decide)).2.1⟩

/-- Counterexample to C6 as stated: a guest bid of −5 is passed through
`execute_bid_with_timeout` unclipped, producing a BidOutcome with a
negative `bid_amount`. -/
theorem bid_outcome_negative_counterexample :
    (executeBidWithTimeout mgrW "alpha"
      (HostBidEvent.workerMsg (.success (-5) 1 []) 1)).1.bid < 0 := by
  have h : (executeBidWithTimeout mgrW "alpha"
      (HostBidEvent.workerMsg (.success (-5) 1 []) 1)).1.bid = round2 (-5) := rfl
  rw [h]
  norm_num [round2, roundHalfEven]

/-- Claim C6 (amended): every BidOutcome produced by a failed or
timed-out bid call has `bid_amount = 0`; a successful call's bid is not
clipped at the Executor and can be negative; it is settlement that
clips every bid to `[0, budget[team]]`, so every clipped bid it
consumes lies in that range. -/
theorem bid_zero_on_failure_and_clipped (m : ManagerState) (t : String) (ev : HostBidEvent)
    (hreg : isRegistered m t = true) (hns : isBidSuccessEv ev = false) :
    (executeBidWithTimeout m t ev).1.bid = 0 ∧
    (∀ bids budgets : List (String × ℚ), ∀ q ∈ clippedBids bids budgets,
      0 ≤ q.2 ∧ q.2 ≤ max 0 (lookupD budgets q.1 0)) := by
  obtain ⟨meta, hm⟩ : ∃ meta, lookupA m.agentMetadata t = some meta := by
    rwa [isRegistered, Option.isSome_iff_exists] at hreg
  constructor
  · cases ev with
    | timeout => simp [executeBidWithTimeout, hm]
    | workerMsg msg e =>
      cases msg with
      | success b tt ns => simp [isBidSuccessEv] at hns
      | error s => simp [executeBidWithTimeout, hm]
    | queueFailure e => simp [executeBidWithTimeout, hm]
    | hostException s e => simp [executeBidWithTimeout, hm]
  · intro bids budgets q hq
    exact ⟨clippedBids_nonneg bids budgets q hq, clippedBids_le_budget bids budgets q hq⟩

/-- Witness for the amended C6 at a concrete timeout. -/
theorem bid_zero_on_failure_witness :
    isRegistered mgrW "alpha" = true ∧
    isBidSuccessEv HostBidEvent.timeout = false ∧
    (executeBidWithTimeout mgrW "alpha" HostBidEvent.timeout).1.bid = 0 :=
  ⟨by decide, rfl,
    (bid_zero_on_failure_and_clipped mgrW "alpha" HostBidEvent.timeout (by decide) rfl).1⟩

/-- Claim C10: a successful bid call returns the guest's bid rounded to
two decimal places (the rounded value is an integer number of
hundredths), with no clipping applied: the result is `round2 b` for
every registered team whatever its stored budget. -/
theorem success_bid_rounded (m : ManagerState) (t : String) (b tt : ℚ) (ns : AgentState)
    (e : ℚ) (hreg : isRegistered m t = true) :
    (executeBidWithTimeout m t (.workerMsg (.success b tt ns) e)).1 = ⟨round2 b, tt, none⟩ ∧
    ∃ k : ℤ, round2 b = (k : ℚ) / 100 := by
  obtain ⟨meta, hm⟩ : ∃ meta, lookupA m.agentMetadata t = some meta := by
    rwa [isRegistered, Option.isSome_iff_exists] at hreg
  exact ⟨by simp [executeBidWithTimeout, hm], ⟨roundHalfEven (b * 100), rfl⟩⟩

/-- Witness for C10: a guest bid of 100.125 against a stored budget of
60 comes back as 100.12 — rounded half-to-even, far above the budget,
so no clipping happened at the Executor boundary. -/
theorem success_bid_rounded_witness :
    isRegistered mgrW "alpha" = true ∧
    (executeBidWithTimeout mgrW "alpha" (.workerMsg (.success (801/8) 1 []) 1)).1 =
      ⟨round2 (801/8), 1, none⟩ ∧
    round2 ((801:ℚ)/8) = 2503/25 ∧
    metaW.budget < round2 ((801:ℚ)/8) := by
  refine ⟨by decide, (success_bid_rounded mgrW "alpha" (801/8) 1 [] 1 (by decide)).1, ?_, ?_⟩
  · norm_num [round2, roundHalfEven]
  · have h : round2 ((801:ℚ)/8) = 2503/25 := by norm_num [round2, roundHalfEven]
    rw [h]
    norm_num [metaW]

theorem serialOK_iff (q : String × FieldVal) :
    serialOK q = true ↔
      (startsUnderscore q.1 = false ∧ q.2.callable = false ∧ q.2.picklable = true) := by
  simp [serialOK, Bool.and_eq_true, Bool.not_eq_true', and_assoc]

/-- Claim C4: on every successful bid or update call the worker's new
checkpoint is exactly the guest object's field map filtered to the
public (no leading underscore), non-callable, serializable fields —
every other field is silently dropped — and the host stores exactly
that filtered map as the team's checkpoint. -/
theorem checkpoint_serialization (run : GuestRun) (urun : GuestUpdateRun) (m : ManagerState)
    (t itemId wteam : String) (price e : ℚ)
    (hb : run.raises = none) (hu : urun.raises = none) (hreg : isRegistered m t = true)
    (hst : getState m t ≠ none) :
    workerExecuteBid .ok run = .success run.bid run.execTime (run.fields.filter serialOK) ∧
    workerUpdateAgent .ok urun = .success (urun.fields.filter serialOK) ∧
    (∀ q ∈ run.fields, q ∈ run.fields.filter serialOK ↔
      (startsUnderscore q.1 = false ∧ q.2.callable = false ∧ q.2.picklable = true)) ∧
    getState ((executeBidWithTimeout m t
      (.workerMsg (workerExecuteBid .ok run) e)).2) t = some (run.fields.filter serialOK) ∧
    getState ((updateAgentAfterRound m t itemId wteam price
      (.workerMsg (workerUpdateAgent .ok urun))).2) t = some (urun.fields.filter serialOK) := by
  have hwb : workerExecuteBid .ok run =
      .success run.bid run.execTime (run.fields.filter serialOK) := by
    rw [workerExecuteBid]
    simp only [hb]
    rw [serializeState_eq_filter]
  have hwu : workerUpdateAgent .ok urun = .success (urun.fields.filter serialOK) := by
    rw [workerUpdateAgent]
    simp only [hu]
    rw [serializeState_eq_filter]
  refine ⟨hwb, hwu, ?_, ?_, ?_⟩
  · intro q hq
    constructor
    · intro hmem
      exact (serialOK_iff q).mp (List.mem_filter.mp hmem).2
    · intro hcond
      exact List.mem_filter.mpr ⟨hq, (serialOK_iff q).mpr hcond⟩
  · rw [hwb, executeBid_success_of_registered m t run.bid run.execTime _ e hreg]
    exact getState_setState_self m t _
  · obtain ⟨s0, hs0⟩ := Option.ne_none_iff_exists'.mp hst
    rw [hwu, update_success_of m t itemId wteam price _ s0 hreg hs0]
    exact getState_setState_self m t _

/-- Witness for C4: only the public picklable field survives. -/
theorem checkpoint_serialization_witness :
    runW.raises = none ∧ urunW.raises = none ∧ isRegistered mgrW "alpha" = true ∧
    getState mgrW "alpha" ≠ none ∧
    workerExecuteBid .ok runW = .success runW.bid runW.execTime (runW.fields.filter serialOK) ∧
    runW.fields.filter serialOK = [("valuations", ⟨3, false, true⟩)] :=
  ⟨rfl, rfl, by decide, by decide,
    (checkpoint_serialization runW urunW mgrW "alpha" "item_0" "" 0 1 rfl rfl
      (by decide) (by decide)).1,
    by decide⟩

/-- Claim C3: in every round the orchestrator invokes the Executor's
update operation once per registered team — winners, losers and teams
whose bid call failed alike — passing the round's public outcome; and a
team whose bid call timed out still gets its successful update's
checkpoint stored for future rounds. -/
theorem updates_every_team (gs : GameState) (n : Nat) (it : String) (env : RoundEnv) :
    (executeAuctionRound gs n it env).updCalls =
      gs.agents.map (fun u =>
        ⟨u, it, ((executeAuctionRound gs n it env).result.winnerId).getD "",
          (executeAuctionRound gs n it env).result.pricePaid⟩) ∧
    (∀ t s0 ns, gs.agents.Nodup → t ∈ gs.agents →
      isRegistered gs.manager t = true → getState gs.manager t = some s0 →
      env.bidEvents t = HostBidEvent.timeout →
      env.updateEvents t = HostUpdateEvent.workerMsg (.success ns) →
      getState (executeAuctionRound gs n it env).state.manager t = some ns) := by
  constructor
  · rw [executeAuctionRound_updCalls, runUpdates_calls, executeAuctionRound_result]
  · intro t s0 ns hnd hmem hreg hst hbev huev
    rw [executeAuctionRound_manager]
    have hbfail : isBidSuccessEv (env.bidEvents t) = false := by rw [hbev]; rfl
    have hreg2 : isRegistered (collectBids gs.agents env.bidEvents gs.manager).2 t = true := by
      rw [collectBids_isRegistered]; exact hreg
    have hst2 : getState (collectBids gs.agents env.bidEvents gs.manager).2 t = some s0 := by
      rw [collectBids_getState_of_not_success gs.agents env.bidEvents gs.manager t hbfail]
      exact hst
    exact runUpdates_getState_success gs.agents it _ _ env.updateEvents _ t ns s0
      hnd hmem hreg2 hst2 huev

/-- Witness for C3: the one-team round with a timed-out bid still issues
the update call and stores the update's checkpoint. -/
theorem updates_every_team_witness :
    gsW.agents.Nodup ∧ ("alpha" ∈ gsW.agents) ∧ isRegistered gsW.manager "alpha" = true ∧
    getState gsW.manager "alpha" = some stateW ∧
    (executeAuctionRound gsW 3 "item_0" envW).updCalls =
      gsW.agents.map (fun u =>
        ⟨u, "item_0", ((executeAuctionRound gsW 3 "item_0" envW).result.winnerId).getD "",
          (executeAuctionRound gsW 3 "item_0" envW).result.pricePaid⟩) ∧
    getState (executeAuctionRound gsW 3 "item_0" envW).state.manager "alpha" = some nsW :=
  ⟨by decide, by decide, by decide, by decide,
    (updates_every_team gsW 3 "item_0" envW).1,
    (updates_every_team gsW 3 "item_0" envW).2 "alpha" stateW nsW (by decide) (by decide)
      (by decide) (by decide) rfl rfl⟩

theorem checkpoint_trace_aux (env : RoundEnv) (it w : String) (p : ℚ) (t : String)
    (teams : List String) (m : ManagerState) (hnd : teams.Nodup) :
    countChanges ((callStates env it w p m (roundCalls teams)).map (fun s => getState s t)) ≤ 2 ∧
    (isBidSuccessEv (env.bidEvents t) = false →
      countChanges ((callStates env it w p m (roundCalls teams)).map
        (fun s => getState s t)) ≤ 1) ∧
    (isUpdSuccessEv (env.updateEvents t) = false →
      countChanges ((callStates env it w p m (roundCalls teams)).map
        (fun s => getState s t)) ≤ 1) ∧
    (isBidSuccessEv (env.bidEvents t) = false →
      isUpdSuccessEv (env.updateEvents t) = false →
      countChanges ((callStates env it w p m (roundCalls teams)).map
        (fun s => getState s t)) = 0) := by
  have hbound := countChanges_callStates env it w p t (roundCalls teams) m
  have hsplit : ((roundCalls teams).filter (mayChange env t)).length =
      ((teams.map RoundCall.bidCall).filter (mayChange env t)).length +
      ((teams.map RoundCall.updateCall).filter (mayChange env t)).length := by
    rw [roundCalls, List.filter_append, List.length_append]
  have hb1 := filter_bidCalls_le_one env t teams hnd
  have hu1 := filter_updCalls_le_one env t teams hnd
  refine ⟨?_, ?_, ?_, ?_⟩
  · exact le_trans hbound (by rw [hsplit]; omega)
  · intro hbf
    have hz := filter_bidCalls_of_fail env t teams hbf
    refine le_trans hbound ?_
    rw [hsplit, hz]
    simp only [List.length_nil, Nat.zero_add]
    exact hu1
  · intro huf
    have hz := filter_updCalls_of_fail env t teams huf
    refine le_trans hbound ?_
    rw [hsplit, hz]
    simp only [List.length_nil, Nat.add_zero]
    exact hb1
  · intro hbf huf
    have hz1 := filter_bidCalls_of_fail env t teams hbf
    have hz2 := filter_updCalls_of_fail env t teams huf
    have hle : countChanges ((callStates env it w p m (roundCalls teams)).map
        (fun s => getState s t)) ≤ 0 := by
      refine le_trans hbound ?_
      rw [hsplit, hz1, hz2]
      simp
    omega

/-- Claim C7 (amended): within one round a team's stored checkpoint
changes at most twice — at most once from its own successful bid call
and at most once from its own successful update call — and only as the
result of a successful call: with no successful bid the changes are at
most one, with neither successful call there is no change at all.  The
trace starts at the pre-round checkpoint and ends at the round's final
manager state. -/
theorem checkpoint_change_bound (gs : GameState) (n : Nat) (it : String) (env : RoundEnv)
    (t : String) (hnd : gs.agents.Nodup) :
    countChanges (roundCheckpointTrace gs n it env t) ≤ 2 ∧
    (isBidSuccessEv (env.bidEvents t) = false →
      countChanges (roundCheckpointTrace gs n it env t) ≤ 1) ∧
    (isUpdSuccessEv (env.updateEvents t) = false →
      countChanges (roundCheckpointTrace gs n it env t) ≤ 1) ∧
    (isBidSuccessEv (env.bidEvents t) = false →
      isUpdSuccessEv (env.updateEvents t) = false →
      countChanges (roundCheckpointTrace gs n it env t) = 0) ∧
    (roundCheckpointTrace gs n it env t).head? = some (getState gs.manager t) ∧
    (roundCheckpointTrace gs n it env t).getLast? =
      some (getState (executeAuctionRound gs n it env).state.manager t) := by
  have htr : roundCheckpointTrace gs n it env t =
      (callStates env it
        ((settle n it (collectBids gs.agents env.bidEvents gs.manager).1 gs.budgets).winnerId.getD "")
        (settle n it (collectBids gs.agents env.bidEvents gs.manager).1 gs.budgets).pricePaid
        gs.manager (roundCalls gs.agents)).map (fun s => getState s t) := rfl
  have ha := checkpoint_trace_aux env it
    ((settle n it (collectBids gs.agents env.bidEvents gs.manager).1 gs.budgets).winnerId.getD "")
    (settle n it (collectBids gs.agents env.bidEvents gs.manager).1 gs.budgets).pricePaid
    t gs.agents gs.manager hnd
  rw [htr]
  refine ⟨ha.1, ha.2.1, ha.2.2.1, ha.2.2.2, ?_, ?_⟩
  · obtain ⟨T, hT⟩ := callStates_head env it
      ((settle n it (collectBids gs.agents env.bidEvents gs.manager).1 gs.budgets).winnerId.getD "")
      (settle n it (collectBids gs.agents env.bidEvents gs.manager).1 gs.budgets).pricePaid
      gs.manager (roundCalls gs.agents)
    rw [hT]
    rfl
  · rw [getLast?_map_states, callStates_getLast, executeAuctionRound_manager_runCalls]
    rfl

/-- Counterexample to C7 as stated: when both the bid call and the
update call of a round succeed, the team's stored checkpoint changes
twice within that round, not at most once. -/
theorem checkpoint_two_changes_counterexample :
    countChanges (roundCheckpointTrace gsW 3 "item_0" envC7 "alpha") = 2 := by decide

/-- Witness for the amended C7 at a concrete round. -/
theorem checkpoint_change_bound_witness :
    gsW.agents.Nodup ∧
    countChanges (roundCheckpointTrace gsW 3 "item_0" envW "alpha") ≤ 1 :=
  ⟨by decide, (checkpoint_change_bound gsW 3 "item_0" envW "alpha" (by decide)).2.1 rfl⟩

theorem clippedBids_map_fst (bids budgets : List (String × ℚ)) :
    (clippedBids bids budgets).map Prod.fst = bids.map Prod.fst := by
  induction bids with
  | nil => rfl
  | cons q rest ih => simp only [clippedBids, List.map_cons] at ih ⊢; rw [ih]

theorem settle_winner_mem (n : Nat) (it : String) (bids budgets : List (String × ℚ))
    (w : String) (hw : (settle n it bids budgets).winnerId = some w) :
    w ∈ bids.map Prod.fst := by
  rcases hb : bestOf (clippedBids bids budgets) with _ | wv
  · rw [settle_none_eq n it bids budgets hb] at hw
    exact Option.noConfusion hw
  · by_cases hv : 0 < wv.2
    · rw [settle_winner_eq n it bids budgets wv hb hv] at hw
      have hww : wv.1 = w := Option.some.inj hw
      have hmem : wv.1 ∈ (clippedBids bids budgets).map Prod.fst :=
        List.mem_map.mpr ⟨wv, bestOf_mem hb, rfl⟩
      rw [clippedBids_map_fst] at hmem
      exact hww ▸ hmem
    · rw [settle_nonpos_eq n it bids budgets wv hb hv] at hw
      exact Option.noConfusion hw

/-- Claim C8: budgets never increase: each round leaves every budget at
most what it was, only the winner's budget changes — debited by exactly
`price_paid` — every non-winner's budget entry is untouched, a
winnerless round changes no budget at all, and across any sequence of
rounds every team's budget is monotonically non-increasing.  The winner
is always one of the budget map's existing keys, so the debit is a
plain dict update. -/
theorem budgets_monotone (gs : GameState) (n : Nat) (it : String) (env : RoundEnv)
    (hkeys : ∀ u ∈ gs.agents, u ∈ gs.budgets.map Prod.fst) :
    (∀ w, (executeAuctionRound gs n it env).result.winnerId = some w →
      w ∈ gs.budgets.map Prod.fst) ∧
    (∀ u, lookupD (executeAuctionRound gs n it env).state.budgets u 0 ≤
      lookupD gs.budgets u 0) ∧
    (∀ w, (executeAuctionRound gs n it env).result.winnerId = some w → w ≠ "" →
      lookupD (executeAuctionRound gs n it env).state.budgets w 0 =
        lookupD gs.budgets w 0 - (executeAuctionRound gs n it env).result.pricePaid ∧
      ∀ u, u ≠ w → lookupA (executeAuctionRound gs n it env).state.budgets u =
        lookupA gs.budgets u) ∧
    ((executeAuctionRound gs n it env).result.winnerId = none →
      (executeAuctionRound gs n it env).state.budgets = gs.budgets) ∧
    (∀ rounds : List (Nat × String × RoundEnv), ∀ u,
      lookupD (runRounds gs rounds).2.budgets u 0 ≤ lookupD gs.budgets u 0) := by
  refine ⟨?_, round_budgets_mono gs n it env, ?_, ?_,
    fun rounds u => runRounds_budgets_mono rounds gs u⟩
  · intro w hw
    rw [executeAuctionRound_result] at hw
    have hmem := settle_winner_mem _ _ _ _ _ hw
    rw [collectBids_fst] at hmem
    exact hkeys w hmem
  · intro w hw hne
    rw [executeAuctionRound_result] at hw
    rw [executeAuctionRound_budgets, hw]
    dsimp only
    rw [if_neg hne]
    constructor
    · rw [lookupD, lookupA_setAssoc_self, Option.getD_some, executeAuctionRound_result]
    · intro u hu
      rw [lookupA_setAssoc_ne _ _ _ _ hu]
  · intro hw
    rw [executeAuctionRound_result] at hw
    rw [executeAuctionRound_budgets, hw]

/-- Witness for C8 at the spec's scenario round. -/
theorem budgets_monotone_witness :
    (∀ u ∈ gsAB.agents, u ∈ gsAB.budgets.map Prod.fst) ∧
    (∀ u, lookupD (executeAuctionRound gsAB 1 "item_0" envAB).state.budgets u 0 ≤
      lookupD gsAB.budgets u 0) :=
  ⟨by decide, (budgets_monotone gsAB 1 "item_0" envAB (by decide)).2.1⟩

/-- Claim C9: if any single team's `load_agent` returns no handle,
game initialization as a whole fails and `run_game` aborts with the
hard failure `"Game initialization failed"` before any auction round
executes — the only value it produces is that error. -/
theorem init_failure_aborts_game (vals : String → List (String × ℚ)) (b : ℚ)
    (loads : String → Bool) (mgr0 : ManagerState) (teamAgents : List (String × String))
    (rounds : List (Nat × String × RoundEnv)) (t : String)
    (hmem : t ∈ teamAgents.map Prod.fst) (hfail : loads t = false) :
    initGame vals b loads mgr0 teamAgents = none ∧
    runGame vals b loads mgr0 teamAgents rounds =
      Except.error "Game initialization failed" := by
  have hla := loadAgents_none (teamAgents.map Prod.fst) vals b loads t hfail teamAgents mgr0 hmem
  have h1 : initGame vals b loads mgr0 teamAgents = none := by
    rw [initGame]
    simp only [hla]
  exact ⟨h1, by rw [runGame]; simp only [h1]⟩

/-- Witness for C9 at a concrete two-team game. -/
theorem init_failure_aborts_game_witness :
    ("bad" ∈ ([("good", "g.py"), ("bad", "b.py")] : List (String × String)).map Prod.fst) ∧
    loadsW "bad" = false ∧
    runGame (fun _ => []) 60 loadsW ⟨3, [], []⟩ [("good", "g.py"), ("bad", "b.py")] [] =
      Except.error "Game initialization failed" :=
  ⟨by decide, by decide,
    (init_failure_aborts_game (fun _ => []) 60 loadsW ⟨3, [], []⟩
      [("good", "g.py"), ("bad", "b.py")] [] "bad" (by decide) (by decide)).2⟩
